import Mathlib

/-!
  Shallow embedding of src/sqlite-backport-module.c, an Emacs dynamic module
  wrapping the SQLite C API.  The native engine (sqlite3) and the Emacs host
  runtime are external collaborators; they are modelled by explicit oracle
  data (an Engine record of step traces, return statuses and messages) and by
  explicit value representations.  Each Lean definition below mirrors one C
  function of the module; native calls and raised signals are recorded as an
  ordered event trace so that resource-release ordering can be stated.
-/

/-- SQLITE_OK return code. -/
def SQLITE_OK : Int := 0

/-- SQLITE_ERROR return code. -/
def SQLITE_ERROR : Int := 1

/-- SQLITE_BUSY return code. -/
def SQLITE_BUSY : Int := 5

/-- SQLITE_LOCKED return code. -/
def SQLITE_LOCKED : Int := 6

/-- SQLITE_MISMATCH return code. -/
def SQLITE_MISMATCH : Int := 20

/-- SQLITE_MISUSE return code (used as the stance of the step oracle on an
exhausted trace). -/
def SQLITE_MISUSE : Int := 21

/-- SQLITE_ROW return code. -/
def SQLITE_ROW : Int := 100

/-- SQLITE_DONE return code. -/
def SQLITE_DONE : Int := 101

/-- A C double carried opaquely through the codec as its 64 IEEE-754 bits.
The module never computes with doubles: extract_float, sqlite3_bind_double,
sqlite3_column_double and make_float all pass the value through unchanged. -/
structure CDouble where
  bits : Nat
deriving DecidableEq, Repr

/-- An Emacs Lisp string as seen by the module: its byte content as copied by
copy_string_contents (without the trailing NUL), its character count as
reported by the host length function, and the coding-system text property at
position 0 (none when the property is nil, otherwise the symbol name). -/
structure LispString where
  bytes : List Nat
  nchars : Nat
  coding : Option String
deriving DecidableEq, Repr

/-- struct Lisp_Sqlite: the payload of a connection user pointer.  The db
field is the sqlite3 pointer, nulled once the connection is closed; an open
pointer is modelled by an abstract Nat identity. -/
structure Lisp_Sqlite where
  db : Option Nat
deriving DecidableEq, Repr

/-- struct Lisp_Statement: the payload of a statement (cursor) user pointer:
the non-owning back reference to the connection pointer, the owned prepared
statement pointer (none once finalized) and the end-of-data flag. -/
structure Lisp_Statement where
  db : Option Nat
  stmt : Option Unit
  eof : Bool
deriving DecidableEq, Repr

/-- An Emacs Lisp value, restricted to the shapes the module inspects:
nil, t, other symbols, integers, floats, strings, cons cells, vectors, and
user pointers (those made by this module, carrying their payload, and any
foreign user pointer). -/
inductive LispValue where
  | nil
  | t
  | symbol (s : String)
  | integer (n : Int)
  | float (x : CDouble)
  | str (s : LispString)
  | cons (a d : LispValue)
  | vector (vs : List LispValue)
  | sqliteHandle (p : Lisp_Sqlite)
  | statementHandle (p : Lisp_Statement)
  | otherUserPtr

/-- A value stored in a bound parameter slot or a result column of the native
engine: the five sqlite storage classes. -/
inductive SqliteValue where
  | null
  | integer (n : Int)
  | float (x : CDouble)
  | text (bytes : List Nat)
  | blob (bytes : List Nat)
deriving DecidableEq, Repr

/-- A signal raised through non_local_exit_signal: either a generic error
with a message, the dedicated sqlite-locked-error, or wrong-type-argument
with the name of the expected predicate. -/
inductive EmacsSignal where
  | err (msg : String)
  | sqlite_locked_error (msg : String)
  | wrong_type_argument (pred : String)
deriving DecidableEq, Repr

/-- One observable step of a module function, in program order: native calls
on the engine and raised signals. -/
inductive Ev where
  | prepareCall
  | resetCall
  | bindCall
  | stepCall
  | finalizeCall
  | closeCall (db : Option Nat)
  | execCall (db : Option Nat)
  | signal (s : EmacsSignal)
deriving DecidableEq, Repr

/-- The outcome of one module function: the value it returns to the host and
the ordered trace of native calls and signals it performed. -/
structure Outcome where
  ret : LispValue
  events : List Ev

/-- The first signal of a trace: Emacs module semantics keep the first
pending non-local exit, so this is the failure the caller observes. -/
def firstSignal : List Ev → Option EmacsSignal
  | [] => none
  | .signal s :: _ => some s
  | _ :: evs => firstSignal evs

/-- lisp_sqlite_check: discriminate the argument by the finalizer of its user
pointer.  A connection pointer is unwrapped if still open and reports
Database closed otherwise; a statement pointer reports Invalid database
object; everything else signals wrong-type-argument sqlitep. -/
def lisp_sqlite_check : LispValue → Except EmacsSignal Lisp_Sqlite
  | .sqliteHandle p =>
      match p.db with
      | some _ => .ok p
      | none => .error (.err "Database closed")
  | .statementHandle _ => .error (.err "Invalid database object")
  | _ => .error (.wrong_type_argument "sqlitep")

/-- lisp_statement_check: same discrimination with the two kinds swapped:
a statement pointer is unwrapped if not yet finalized and reports Statement
closed otherwise; a connection pointer reports Invalid set object; everything
else signals wrong-type-argument sqlitep. -/
def lisp_statement_check : LispValue → Except EmacsSignal Lisp_Statement
  | .statementHandle p =>
      match p.stmt with
      | some _ => .ok p
      | none => .error (.err "Statement closed")
  | .sqliteHandle _ => .error (.err "Invalid set object")
  | _ => .error (.wrong_type_argument "sqlitep")

/-- Whether a value is a user pointer made by this module (either kind). -/
def isHandle : LispValue → Bool
  | .sqliteHandle _ => true
  | .statementHandle _ => true
  | _ => false

/-- Number of characters that the byte sequence of a multibyte string holds:
every byte that is not a UTF-8 continuation byte (10xxxxxx) starts a
character.  This models the character count make_string gives to a string
built from well-formed UTF-8 bytes. -/
def utf8Length (bs : List Nat) : Nat :=
  (bs.filter (fun b => decide (b / 64 ≠ 2))).length

/-- One result column, decoded by the switch in row_to_value: integers,
floats, blobs (make_unibyte_string: one character per byte, no properties),
text (make_string over the bytes) and nil for every other column type. -/
def decodeColumn : SqliteValue → LispValue
  | .integer n => .integer n
  | .float x => .float x
  | .blob bs => .str ⟨bs, bs.length, none⟩
  | .text bs => .str ⟨bs, utf8Length bs, none⟩
  | .null => .nil

/-- Build a proper Lisp list out of a Lean list. -/
def ofList : List LispValue → LispValue
  | [] => .nil
  | v :: vs => .cons v (ofList vs)

/-- Tail of the host nreverse: walk the cons chain pushing each car onto the
accumulator. -/
def nreverseAux : LispValue → LispValue → LispValue
  | .cons a d, acc => nreverseAux d (.cons a acc)
  | _, acc => acc

/-- The host nreverse on a proper list. -/
def nreverse (v : LispValue) : LispValue := nreverseAux v .nil

/-- row_to_value: decode every column of the current row in column order,
consing onto an accumulator and nreversing at the end. -/
def row_to_value (row : List SqliteValue) : LispValue :=
  nreverse (row.foldl (fun acc c => .cons (decodeColumn c) acc) .nil)

/-- column_names: build the list of column-name strings in column order,
consing then nreversing, one build_string per native column name. -/
def column_names (names : List (List Nat)) : LispValue :=
  nreverse (names.foldl (fun acc nm => .cons (.str ⟨nm, utf8Length nm, none⟩) acc) .nil)

/-- The host encode-coding-string collaborator: transforms a string under a
named coding system.  The module calls it for strings whose coding-system
property is neither nil nor binary. -/
def EncCS : Type := LispString → String → LispString

/-- The identity coding transform, used as a concrete collaborator in
witnesses. -/
def encId : EncCS := fun s _ => s

/-- Outcome of binding one element in the bind_values loop. -/
inductive BindOutcome where
  | ok (sv : SqliteValue)
  | blobError
  | invalidArg
deriving DecidableEq, Repr

/-- The per-element branch of bind_values, in source order: strings (with
the coding-system property deciding text, blob, or a transform first),
integers, floats, nil, t, the symbol false, and otherwise invalid argument.
A binary-tagged string whose byte count plus NUL differs from its character
count plus one is rejected as a malformed blob. -/
def bindOne (encCS : EncCS) : LispValue → BindOutcome
  | .str s =>
      match s.coding with
      | some "binary" =>
          let size := s.bytes.length + 1
          if size = 0 then .ok (.blob [])
          else if size ≠ s.nchars + 1 then .blobError
          else .ok (.blob s.bytes)
      | some cs =>
          let s' := encCS s cs
          let size := s'.bytes.length + 1
          if size = 0 then .ok (.text []) else .ok (.text s'.bytes)
      | none =>
          let size := s.bytes.length + 1
          if size = 0 then .ok (.text []) else .ok (.text s.bytes)
  | .integer n => .ok (.integer n)
  | .float x => .ok (.float x)
  | .nil => .ok .null
  | .t => .ok (.integer 1)
  | .symbol s => if s = "false" then .ok (.integer 0) else .invalidArg
  | _ => .invalidArg

/-- Result of bind_values: the const char pointer it returns (none for NULL,
meaning success), the parameter values successfully bound in position order,
and the events it performed. -/
structure BindResult where
  err : Option String
  bound : List SqliteValue
  events : List Ev
deriving DecidableEq, Repr

/-- The bind_values loop body over the extracted elements: on success the
native bind call is recorded and the loop continues; a malformed blob raises
the BLOB values must be unibyte signal and returns the empty string; an
unrecognized value returns the invalid argument message.  Either failure
stops the loop, so later positions are not bound.  Native bind statuses are
modelled as SQLITE_OK: the engine oracle accepts every in-range bind. -/
def bind_values_go (encCS : EncCS) : List LispValue → BindResult
  | [] => ⟨none, [], []⟩
  | v :: rest =>
      match bindOne encCS v with
      | .ok sv =>
          let r := bind_values_go encCS rest
          ⟨r.err, sv :: r.bound, .bindCall :: r.events⟩
      | .blobError => ⟨some "", [], [.signal (.err "BLOB values must be unibyte")]⟩
      | .invalidArg => ⟨some "invalid argument", [], []⟩

/-- The elements a proper list holds, in order, as the car and cdr iteration
of bind_values visits them. -/
def listElems : LispValue → List LispValue
  | .cons a d => a :: listElems d
  | _ => []

/-- The elements of the VALUES argument: vector elements by index, list
elements by car and cdr. -/
def valuesElems : LispValue → List LispValue
  | .vector vs => vs
  | v => listElems v

/-- bind_values: reset the statement, then bind each element of the list or
vector in order. -/
def bind_values (encCS : EncCS) (values : LispValue) : BindResult :=
  let r := bind_values_go encCS (valuesElems values)
  ⟨r.err, r.bound, .resetCall :: r.events⟩

/-- The native engine oracle for one execute or select call: the status of
sqlite3_prepare_v2 (and whether the out statement is non-NULL when it fails),
the successive outcomes of sqlite3_step (status and current row contents),
the value of sqlite3_changes after the step, the sqlite3_errmsg text, the
status sqlite3_exec returns, and the native column names. -/
structure Engine where
  prepareRet : Int
  prepareStmt : Bool
  steps : List (Int × List SqliteValue)
  changes : Int
  errmsg : String
  execRet : Int
  columnNames : List (List Nat)

/-- The outcome of the first sqlite3_step on the prepared statement; an
exhausted trace stands for a misused statement. -/
def stepHead (eng : Engine) : Int × List SqliteValue :=
  match eng.steps with
  | [] => (SQLITE_MISUSE, [])
  | s :: _ => s

/-- The stepping loop of eager select: consume step outcomes while the
status is SQLITE_ROW, collecting the rows in order; stop at the first other
status and report it.  Each iteration performs one step call. -/
def stepCollect : List (Int × List SqliteValue) → List (List SqliteValue) × Int × List Ev
  | [] => ([], SQLITE_MISUSE, [.stepCall])
  | (r, row) :: rest =>
      if r = SQLITE_ROW then
        let sc := stepCollect rest
        (row :: sc.1, sc.2.1, .stepCall :: sc.2.2)
      else ([], r, [.stepCall])

/-- Whether the optional VALUES argument passes the type check of
Fsqlite_execute: absent, nil, a cons, or a vector. -/
def valuesTypeOk : Option LispValue → Bool
  | none => true
  | some .nil => true
  | some (.cons _ _) => true
  | some (.vector _) => true
  | some _ => false

/-- The bind phase shared by execute and select: bind_values runs exactly
when a VALUES argument is present and non-nil. -/
def bindPhase (encCS : EncCS) : Option LispValue → Option BindResult
  | none => none
  | some .nil => none
  | some v => some (bind_values encCS v)

/-- Whether the bind phase succeeded (no phase, or a NULL error return). -/
def bindPhaseOk (r : Option BindResult) : Prop :=
  match r with
  | none => True
  | some br => br.err = none

instance (r : Option BindResult) : Decidable (bindPhaseOk r) := by
  unfold bindPhaseOk
  cases r with
  | none => exact inferInstance
  | some br => exact inferInstance

/-- The exit label of Fsqlite_execute: signal sqlite-locked-error when the
last native status is SQLITE_LOCKED or SQLITE_BUSY, a generic error
otherwise, in both cases carrying errmsg. -/
def execExit (ret : Int) (errmsg : String) (evs : List Ev) : Outcome :=
  if ret = SQLITE_LOCKED ∨ ret = SQLITE_BUSY then
    ⟨.nil, evs ++ [.signal (.sqlite_locked_error errmsg)]⟩
  else
    ⟨.nil, evs ++ [.signal (.err errmsg)]⟩

/-- The step-and-finalize tail of Fsqlite_execute: one sqlite3_step, then
sqlite3_finalize unconditionally; a status other than SQLITE_OK and
SQLITE_DONE goes to the exit label with the engine message, otherwise the
call returns sqlite3_changes. -/
def execStep (eng : Engine) (evs : List Ev) : Outcome :=
  let sret := (stepHead eng).1
  let evs1 := evs ++ [Ev.stepCall, Ev.finalizeCall]
  if sret ≠ SQLITE_OK ∧ sret ≠ SQLITE_DONE then
    execExit sret eng.errmsg evs1
  else
    ⟨.integer eng.changes, evs1⟩

/-- Fsqlite_execute: validate the connection handle, that SQL is a string,
and that VALUES (when given) is nil, a list or a vector; prepare the first
statement of SQL (finalizing, then resetting, a non-NULL partial statement on
prepare failure); bind the values, jumping to the exit label on a bind error
without touching the statement; step once, finalize, and either return the
affected-row count or go to the exit label. -/
def Fsqlite_execute (h sql : LispValue) (values : Option LispValue)
    (encCS : EncCS) (eng : Engine) : Outcome :=
  match lisp_sqlite_check h with
  | .error s => ⟨.nil, [.signal s]⟩
  | .ok _ptr =>
      match sql with
      | .str _ =>
          if valuesTypeOk values then
            let evs0 := [Ev.prepareCall]
            if eng.prepareRet ≠ SQLITE_OK then
              let evs := evs0 ++ (if eng.prepareStmt then [Ev.finalizeCall, Ev.resetCall] else [])
              execExit eng.prepareRet eng.errmsg evs
            else
              match bindPhase encCS values with
              | some br =>
                  match br.err with
                  | some e => execExit SQLITE_OK e (evs0 ++ br.events)
                  | none => execStep eng (evs0 ++ br.events)
              | none => execStep eng evs0
          else
            ⟨.nil, [.signal (.err "VALUES must be a list or a vector")]⟩
      | _ => ⟨.nil, [.signal (.wrong_type_argument "stringp")]⟩

/-- Whether an optional mode argument is a given symbol (the EQ test against
an interned symbol). -/
def isSym (v : Option LispValue) (s : String) : Bool :=
  match v with
  | some (.symbol t) => t = s
  | _ => false

/-- The eager tail of Fsqlite_select: step to completion collecting one
decoded row per SQLITE_ROW status (cons then nreverse), prepend the column
names under the full mode, finalize the statement, and return the data.  The
final non-row status is not examined. -/
def select_eager (mode : Option LispValue) (eng : Engine) (evs : List Ev) : Outcome :=
  let sc := stepCollect eng.steps
  let retval0 := nreverse (sc.1.foldl (fun acc r => .cons (row_to_value r) acc) .nil)
  let retval := if isSym mode "full" then
      LispValue.cons (column_names eng.columnNames) retval0
    else retval0
  ⟨retval, evs ++ sc.2.2 ++ [.finalizeCall]⟩

/-- Fsqlite_select: validate the connection handle and that SQL is a string;
prepare (finalizing a non-NULL partial statement on failure, with the message
produced by the prepare-error helper, and signalling a generic error); bind
the values, finalizing the statement before signalling on a bind error; under
the set mode hand the statement to a fresh Lisp_Statement with a cleared
end-of-data flag; otherwise run the eager tail.  The source computes the
prepare-failure message by calling sqlite_prepare_errdata on the status and
a variable sdb, neither of which is defined anywhere in the repository (the
translation unit cannot compile); the message is therefore taken from an
abstract function argument prepErrFn. -/
def Fsqlite_select (h sql : LispValue) (values : Option LispValue)
    (mode : Option LispValue) (encCS : EncCS) (prepErrFn : Int → String)
    (eng : Engine) : Outcome :=
  match lisp_sqlite_check h with
  | .error s => ⟨.nil, [.signal s]⟩
  | .ok ptr =>
      match sql with
      | .str _ =>
          let evs0 := [Ev.prepareCall]
          if eng.prepareRet ≠ SQLITE_OK then
            let evs := evs0 ++ (if eng.prepareStmt then [Ev.finalizeCall] else [])
            ⟨.nil, evs ++ [.signal (.err (prepErrFn eng.prepareRet))]⟩
          else
            match bindPhase encCS values with
            | some br =>
                match br.err with
                | some e =>
                    ⟨.nil, evs0 ++ br.events ++ [.finalizeCall, .signal (.err e)]⟩
                | none =>
                    if isSym mode "set" then
                      ⟨.statementHandle ⟨ptr.db, some (), false⟩, evs0 ++ br.events⟩
                    else select_eager mode eng (evs0 ++ br.events)
            | none =>
                if isSym mode "set" then
                  ⟨.statementHandle ⟨ptr.db, some (), false⟩, evs0⟩
                else select_eager mode eng evs0
      | _ => ⟨.nil, [.signal (.wrong_type_argument "stringp")]⟩

/-- Fsqlite_close: on a valid open connection, sqlite3_close and null the
pointer (the updated Lisp_Sqlite is returned alongside), answering t; a
failed check signals and answers nil. -/
def Fsqlite_close (h : LispValue) : Outcome × Option Lisp_Sqlite :=
  match lisp_sqlite_check h with
  | .error s => (⟨.nil, [.signal s]⟩, none)
  | .ok ptr => (⟨.t, [.closeCall ptr.db]⟩, some ⟨none⟩)

/-- Fsqlite_transaction: unlike every sibling, the NULL result of
lisp_sqlite_check is not tested, so after the closed-handle signal the code
goes on to read db through the NULL pointer and hand it to sqlite3_exec
with the begin text: a native call through the nulled handle (a null-pointer
dereference, undefined behavior, recorded as execCall none). -/
def Fsqlite_transaction (h : LispValue) (eng : Engine) : Outcome :=
  match lisp_sqlite_check h with
  | .error s =>
      ⟨(if eng.execRet ≠ SQLITE_OK then .nil else .t), [.signal s, .execCall none]⟩
  | .ok ptr =>
      ⟨(if eng.execRet ≠ SQLITE_OK then .nil else .t), [.execCall ptr.db]⟩

/-- Fsqlite_commit: checked connection, one sqlite3_exec with the commit
text, t on SQLITE_OK and nil otherwise. -/
def Fsqlite_commit (h : LispValue) (eng : Engine) : Outcome :=
  match lisp_sqlite_check h with
  | .error s => ⟨.nil, [.signal s]⟩
  | .ok ptr =>
      ⟨(if eng.execRet ≠ SQLITE_OK then .nil else .t), [.execCall ptr.db]⟩

/-- Fsqlite_rollback: checked connection, one sqlite3_exec with the rollback
text, t on SQLITE_OK and nil otherwise. -/
def Fsqlite_rollback (h : LispValue) (eng : Engine) : Outcome :=
  match lisp_sqlite_check h with
  | .error s => ⟨.nil, [.signal s]⟩
  | .ok ptr =>
      ⟨(if eng.execRet ≠ SQLITE_OK then .nil else .t), [.execCall ptr.db]⟩

/-- Fsqlite_pragma: checked connection, one sqlite3_exec with PRAGMA
prepended to the argument, t on SQLITE_OK and nil otherwise. -/
def Fsqlite_pragma (h _pragmaText : LispValue) (eng : Engine) : Outcome :=
  match lisp_sqlite_check h with
  | .error s => ⟨.nil, [.signal s]⟩
  | .ok ptr =>
      ⟨(if eng.execRet ≠ SQLITE_OK then .nil else .t), [.execCall ptr.db]⟩

/-- The result of one cursor operation: the value answered to the host, the
event trace, and the Lisp_Statement state afterwards. -/
structure CursorOut where
  ret : LispValue
  events : List Ev
  state : Lisp_Statement

/-- Fsqlite_next: validate the statement handle; one sqlite3_step.  A status
other than SQLITE_ROW, SQLITE_OK and SQLITE_DONE signals the engine message
(read through the non-owning connection back reference); SQLITE_DONE sets the
end-of-data flag and answers nil; otherwise the current row is decoded.  The
step oracle outcome and message are the arguments. -/
def Fsqlite_next (st : Lisp_Statement) (step : Int × List SqliteValue)
    (errm : String) : CursorOut :=
  match lisp_statement_check (.statementHandle st) with
  | .error s => ⟨.nil, [.signal s], st⟩
  | .ok ptr =>
      let ret := step.1
      if ret ≠ SQLITE_ROW ∧ ret ≠ SQLITE_OK ∧ ret ≠ SQLITE_DONE then
        ⟨.nil, [.stepCall, .signal (.err errm)], ptr⟩
      else if ret = SQLITE_DONE then
        ⟨.nil, [.stepCall], { ptr with eof := true }⟩
      else
        ⟨row_to_value step.2, [.stepCall], ptr⟩

/-- Fsqlite_more_p: validate the statement handle and answer t exactly when
the end-of-data flag is still clear.  No native call is made. -/
def Fsqlite_more_p (st : Lisp_Statement) : CursorOut :=
  match lisp_statement_check (.statementHandle st) with
  | .error s => ⟨.nil, [.signal s], st⟩
  | .ok ptr => ⟨(if ptr.eof then .nil else .t), [], ptr⟩

/-- Fsqlite_columns: validate the statement handle and answer the column
names of the statement (supplied by the engine oracle). -/
def Fsqlite_columns (st : Lisp_Statement) (names : List (List Nat)) : CursorOut :=
  match lisp_statement_check (.statementHandle st) with
  | .error s => ⟨.nil, [.signal s], st⟩
  | .ok ptr => ⟨column_names names, [], ptr⟩

/-- Fsqlite_finalize: validate the statement handle, sqlite3_finalize the
statement and null its pointer, answering t. -/
def Fsqlite_finalize (st : Lisp_Statement) : CursorOut :=
  match lisp_statement_check (.statementHandle st) with
  | .error s => ⟨.nil, [.signal s], st⟩
  | .ok ptr => ⟨.t, [.finalizeCall], { ptr with stmt := none }⟩

/-- One cursor operation together with the oracle data its native calls
would observe. -/
inductive CursorOp where
  | next (step : Int × List SqliteValue) (errm : String)
  | more_p
  | columnsOp (names : List (List Nat))
  | finalizeOp

/-- Dispatch one cursor operation. -/
def runCursorOp (st : Lisp_Statement) : CursorOp → CursorOut
  | .next s e => Fsqlite_next st s e
  | .more_p => Fsqlite_more_p st
  | .columnsOp ns => Fsqlite_columns st ns
  | .finalizeOp => Fsqlite_finalize st

/-- Run a sequence of cursor operations, threading the handle state. -/
def runCursorOps (st : Lisp_Statement) : List CursorOp → Lisp_Statement
  | [] => st
  | op :: ops => runCursorOps (runCursorOp st op).state ops

/-- The byte codes of the :memory: tag used for anonymous in-memory names. -/
def memNameTag : List Nat := (":memory:".data.map Char.toNat)

/-- The decimal digits of a counter value, most significant first, as the
host format function renders the %d directive. -/
def decimalDigits (n : Nat) : List Nat := (Nat.digits 10 n).reverse

/-- The database name requested for an anonymous in-memory open holding a
given counter value: the :memory: tag followed by the decimal rendering of
the counter. -/
def anonDbName (count : Nat) : List Nat := memNameTag ++ decimalDigits count

/-- The anonymous branch of Fsqlite_open: pre-increment the process-wide
db_count and format the fresh in-memory name from the incremented value.
Answers the new counter and the requested name. -/
def Fsqlite_open_anonymous (db_count : Nat) : Nat × List Nat :=
  let n := db_count + 1
  (n, anonDbName n)

/-- The value of db_count after a number of anonymous opens, starting from
its static initializer 0. -/
def anonOpenCounter : Nat → Nat
  | 0 => 0
  | k + 1 => (Fsqlite_open_anonymous (anonOpenCounter k)).1

/-- The name requested by the anonymous open of a given index (0-based). -/
def anonOpenName (k : Nat) : List Nat :=
  (Fsqlite_open_anonymous (anonOpenCounter k)).2

/-- Whether an event is a raised signal. -/
def isSignalEv : Ev → Bool
  | .signal _ => true
  | _ => false

theorem firstSignal_eq_none (a : List Ev) (h : ∀ e ∈ a, isSignalEv e = false) :
    firstSignal a = none := by
  induction a with
  | nil => rfl
  | cons e es ih =>
      cases e with
      | signal s => exact absurd (h _ (List.mem_cons_self _ _)) (by simp [isSignalEv])
      | _ =>
          simp only [firstSignal]
          exact ih (fun e he => h e (List.mem_cons_of_mem _ he))

theorem firstSignal_append_of_none (a b : List Ev)
    (h : ∀ e ∈ a, isSignalEv e = false) :
    firstSignal (a ++ b) = firstSignal b := by
  induction a with
  | nil => rfl
  | cons e es ih =>
      cases e with
      | signal s => exact absurd (h _ (List.mem_cons_self _ _)) (by simp [isSignalEv])
      | _ =>
          simp only [List.cons_append, firstSignal]
          exact ih (fun e he => h e (List.mem_cons_of_mem _ he))

theorem nreverseAux_ofList (l m : List LispValue) :
    nreverseAux (ofList l) (ofList m) = ofList (l.reverse ++ m) := by
  induction l generalizing m with
  | nil => simp [ofList, nreverseAux]
  | cons x xs ih =>
      have h1 : nreverseAux (ofList (x :: xs)) (ofList m)
          = nreverseAux (ofList xs) (ofList (x :: m)) := rfl
      rw [h1, ih]
      simp

theorem foldl_cons_ofList {α : Type} (f : α → LispValue) (l : List α) (m : List LispValue) :
    l.foldl (fun acc r => .cons (f r) acc) (ofList m) = ofList ((l.map f).reverse ++ m) := by
  induction l generalizing m with
  | nil => simp
  | cons x xs ih =>
      have h1 : (x :: xs).foldl (fun acc r => LispValue.cons (f r) acc) (ofList m)
          = xs.foldl (fun acc r => LispValue.cons (f r) acc) (ofList (f x :: m)) := rfl
      rw [h1, ih]
      simp

theorem row_to_value_eq (row : List SqliteValue) :
    row_to_value row = ofList (row.map decodeColumn) := by
  unfold row_to_value nreverse
  have h0 : (LispValue.nil : LispValue) = ofList [] := rfl
  rw [h0, foldl_cons_ofList, nreverseAux_ofList]
  simp

theorem column_names_eq (names : List (List Nat)) :
    column_names names
      = ofList (names.map (fun nm => .str ⟨nm, utf8Length nm, none⟩)) := by
  unfold column_names nreverse
  have h0 : (LispValue.nil : LispValue) = ofList [] := rfl
  rw [h0, foldl_cons_ofList, nreverseAux_ofList]
  simp

theorem listElems_ofList (l : List LispValue) : listElems (ofList l) = l := by
  induction l with
  | nil => rfl
  | cons x xs ih => simp [ofList, listElems, ih]

theorem bind_values_go_all_bindCall (encCS : EncCS) (l : List LispValue)
    (h : (bind_values_go encCS l).err = none) :
    ∀ e ∈ (bind_values_go encCS l).events, e = Ev.bindCall := by
  induction l with
  | nil => intro e he; simp [bind_values_go] at he
  | cons v rest ih =>
      intro e he
      simp only [bind_values_go] at h he
      cases hb : bindOne encCS v with
      | ok sv =>
          rw [hb] at h he
          simp only [List.mem_cons] at he
          rcases he with he | he
          · exact he
          · exact ih h e he
      | blobError => rw [hb] at h; simp at h
      | invalidArg => rw [hb] at h; simp at h

theorem bind_values_go_append (encCS : EncCS) (pre xs : List LispValue)
    (h : (bind_values_go encCS pre).err = none) :
    bind_values_go encCS (pre ++ xs) =
      ⟨(bind_values_go encCS xs).err,
       (bind_values_go encCS pre).bound ++ (bind_values_go encCS xs).bound,
       (bind_values_go encCS pre).events ++ (bind_values_go encCS xs).events⟩ := by
  induction pre with
  | nil => simp [bind_values_go]
  | cons v rest ih =>
      simp only [bind_values_go, List.cons_append] at h ⊢
      cases hb : bindOne encCS v with
      | ok sv =>
          rw [hb] at h
          simp at h
          simp [List.append_eq, ih h]
      | blobError => rw [hb] at h; simp at h
      | invalidArg => rw [hb] at h; simp at h

theorem bind_values_ok_events (encCS : EncCS) (v : LispValue)
    (h : (bind_values encCS v).err = none) :
    ∀ e ∈ (bind_values encCS v).events, e = Ev.resetCall ∨ e = Ev.bindCall := by
  intro e he
  simp only [bind_values, List.mem_cons] at he h
  rcases he with he | he
  · exact Or.inl he
  · exact Or.inr (bind_values_go_all_bindCall encCS _ h e he)

theorem stepCollect_all_stepCall (ts : List (Int × List SqliteValue)) :
    ∀ e ∈ (stepCollect ts).2.2, e = Ev.stepCall := by
  induction ts with
  | nil => intro e he; simp [stepCollect] at he; exact he
  | cons p rest ih =>
      intro e he
      obtain ⟨r, row⟩ := p
      simp only [stepCollect] at he
      by_cases hr : r = SQLITE_ROW
      · rw [if_pos hr] at he
        simp only [List.mem_cons] at he
        rcases he with he | he
        · exact he
        · exact ih e he
      · rw [if_neg hr] at he
        simp at he; exact he

theorem bindPhase_cases (encCS : EncCS) (values : Option LispValue) :
    bindPhase encCS values = none ∨
    ∃ v, bindPhase encCS values = some (bind_values encCS v) := by
  cases values with
  | none => exact Or.inl rfl
  | some v => cases v <;> first
      | exact Or.inl rfl
      | exact Or.inr ⟨_, rfl⟩

/-- A benign engine oracle: prepare succeeds, the single step completes at
once, no rows changed. -/
def engOK : Engine := ⟨SQLITE_OK, false, [(SQLITE_DONE, [])], 0, "", SQLITE_OK, []⟩

/-- A concrete prepare-error message function. -/
def prepErr0 : Int → String := fun _ => "prepare failed"

/-- A connection handle whose pointer has been nulled by a successful close. -/
def closedConn : LispValue := .sqliteHandle ⟨none⟩

/-- A one-byte piece of SQL text. -/
def sql0 : LispString := ⟨[115], 1, none⟩

/-- A VALUES list holding one symbol, which the binder rejects as an invalid
argument. -/
def valsBad : LispValue := .cons (.symbol "foo") .nil

/-- Binding one host value as a parameter and reading it back from a result
column of the same stored value. -/
def bindThenDecode (encCS : EncCS) (v : LispValue) : Option LispValue :=
  match bindOne encCS v with
  | .ok sv => some (decodeColumn sv)
  | _ => none

/-- C4: handle validation discriminates four cases: an open handle of the
expected kind unwraps to its resource; a closed handle of the expected kind
fails with the resource-closed error; a handle of the other kind fails with
the invalid-object error and not with wrong-type; a value that is no handle
at all fails with wrong-type-argument, for both check functions. -/
theorem C4_handle_validation_four_way :
    (∀ d : Nat, lisp_sqlite_check (.sqliteHandle ⟨some d⟩) = .ok ⟨some d⟩) ∧
    (lisp_sqlite_check (.sqliteHandle ⟨none⟩) = .error (.err "Database closed")) ∧
    (∀ st : Lisp_Statement,
      lisp_sqlite_check (.statementHandle st) = .error (.err "Invalid database object")) ∧
    (∀ st : Lisp_Statement,
      lisp_sqlite_check (.statementHandle st) ≠ .error (.wrong_type_argument "sqlitep")) ∧
    (∀ v : LispValue, isHandle v = false →
      lisp_sqlite_check v = .error (.wrong_type_argument "sqlitep")) ∧
    (∀ db eof, lisp_statement_check (.statementHandle ⟨db, some (), eof⟩)
      = .ok ⟨db, some (), eof⟩) ∧
    (∀ db eof, lisp_statement_check (.statementHandle ⟨db, none, eof⟩)
      = .error (.err "Statement closed")) ∧
    (∀ p : Lisp_Sqlite,
      lisp_statement_check (.sqliteHandle p) = .error (.err "Invalid set object")) ∧
    (∀ v : LispValue, isHandle v = false →
      lisp_statement_check v = .error (.wrong_type_argument "sqlitep")) := by
  refine ⟨fun d => rfl, rfl, fun st => rfl, ?_, ?_, fun db eof => rfl, fun db eof => rfl,
    fun p => rfl, ?_⟩
  · intro st h
    simp [lisp_sqlite_check] at h
  · intro v h
    cases v <;> first | rfl | simp [isHandle] at h
  · intro v h
    cases v <;> first | rfl | simp [isHandle] at h

/-- Witness for C4 at concrete non-handle inputs. -/
theorem C4_handle_validation_four_way_witness :
    lisp_sqlite_check (.integer 7) = .error (.wrong_type_argument "sqlitep") ∧
    lisp_statement_check .otherUserPtr = .error (.wrong_type_argument "sqlitep") :=
  ⟨C4_handle_validation_four_way.2.2.2.2.1 (.integer 7) rfl,
   C4_handle_validation_four_way.2.2.2.2.2.2.2.2 .otherUserPtr rfl⟩

/-- C3: on a closed connection handle every operation raises the Database
closed failure first and performs no native call, with one exception that
contradicts the claim: Fsqlite_transaction alone omits the null test after
the check, so after the signal it still reads db through the NULL pointer
and invokes sqlite3_exec with it (undefined behavior), recorded here as the
execCall through the nulled handle. -/
theorem C3_closed_connection_operations :
    (Fsqlite_transaction closedConn engOK).events
      = [.signal (.err "Database closed"), .execCall none] ∧
    (Fsqlite_commit closedConn engOK).events = [.signal (.err "Database closed")] ∧
    (Fsqlite_rollback closedConn engOK).events = [.signal (.err "Database closed")] ∧
    (Fsqlite_pragma closedConn (.str sql0) engOK).events
      = [.signal (.err "Database closed")] ∧
    (Fsqlite_execute closedConn (.str sql0) none encId engOK).events
      = [.signal (.err "Database closed")] ∧
    (Fsqlite_select closedConn (.str sql0) none none encId prepErr0 engOK).events
      = [.signal (.err "Database closed")] ∧
    ((Fsqlite_close closedConn).1).events = [.signal (.err "Database closed")] :=
  ⟨rfl, rfl, rfl, rfl, rfl, rfl, rfl⟩

/-- C2: the bind-failure path of Fsqlite_execute jumps to its exit label and
signals without finalizing the statement prepared just before, leaking it,
while the same path of Fsqlite_select finalizes the statement before
signalling. -/
theorem C2_execute_bind_failure_leaks_statement :
    (Fsqlite_execute (.sqliteHandle ⟨some 0⟩) (.str sql0) (some valsBad) encId engOK).events
      = [.prepareCall, .resetCall, .signal (.err "invalid argument")] ∧
    Ev.finalizeCall ∉
      (Fsqlite_execute (.sqliteHandle ⟨some 0⟩) (.str sql0) (some valsBad) encId engOK).events ∧
    (Fsqlite_select (.sqliteHandle ⟨some 0⟩) (.str sql0) (some valsBad) none encId
        prepErr0 engOK).events
      = [.prepareCall, .resetCall, .finalizeCall, .signal (.err "invalid argument")] :=
  ⟨rfl, by decide, rfl⟩

/-- C7: bind-then-decode round-trips every supported Bound Value variant:
integers, floats and nil map to themselves; a well-formed multibyte text
string with no coding property maps to itself; a binary-tagged unibyte
string is bound as a blob of exactly its bytes and decodes to the unibyte
string of those bytes; the booleans t and false map to integers 1 and 0. -/
theorem C7_codec_roundtrip (n : Int) (x : CDouble) (sb tb : List Nat) (encCS : EncCS) :
    bindThenDecode encCS (.integer n) = some (.integer n) ∧
    bindThenDecode encCS (.float x) = some (.float x) ∧
    bindThenDecode encCS .nil = some .nil ∧
    bindThenDecode encCS .t = some (.integer 1) ∧
    bindThenDecode encCS (.symbol "false") = some (.integer 0) ∧
    bindThenDecode encCS (.str ⟨sb, utf8Length sb, none⟩)
      = some (.str ⟨sb, utf8Length sb, none⟩) ∧
    bindOne encCS (.str ⟨tb, tb.length, some "binary"⟩) = .ok (.blob tb) ∧
    bindThenDecode encCS (.str ⟨tb, tb.length, some "binary"⟩)
      = some (.str ⟨tb, tb.length, none⟩) := by
  refine ⟨rfl, rfl, rfl, rfl, rfl, ?_, ?_, ?_⟩
  · simp [bindThenDecode, bindOne, decodeColumn]
  · simp [bindOne]
  · simp [bindThenDecode, bindOne, decodeColumn]

theorem valuesElems_ofList (l : List LispValue) : valuesElems (ofList l) = l := by
  cases l with
  | nil => rfl
  | cons x xs => simp [ofList, valuesElems, listElems, listElems_ofList]

/-- C10: in a VALUES sequence holding a binary-tagged string whose byte
length differs from its declared character count, bind_values raises the
malformed-blob signal, returns the empty-string error marker, and binds
exactly the parameter positions before the bad element: nothing from the bad
element on is bound. -/
theorem C10_blob_length_mismatch_aborts (encCS : EncCS) (pre rest : List LispValue)
    (bad : LispString)
    (hpre : (bind_values encCS (ofList pre)).err = none)
    (hcoding : bad.coding = some "binary")
    (hlen : bad.bytes.length ≠ bad.nchars) :
    (bind_values encCS (ofList (pre ++ .str bad :: rest))).err = some "" ∧
    firstSignal (bind_values encCS (ofList (pre ++ .str bad :: rest))).events
      = some (.err "BLOB values must be unibyte") ∧
    (bind_values encCS (ofList (pre ++ .str bad :: rest))).bound
      = (bind_values encCS (ofList pre)).bound := by
  have hpre' : (bind_values_go encCS pre).err = none := by
    simpa [bind_values, valuesElems_ofList] using hpre
  have hbad : bindOne encCS (.str bad) = .blobError := by
    simp [bindOne, hcoding, hlen]
  have hbadgo : bind_values_go encCS (.str bad :: rest)
      = ⟨some "", [], [.signal (.err "BLOB values must be unibyte")]⟩ := by
    simp [bind_values_go, hbad]
  have happ := bind_values_go_append encCS pre (.str bad :: rest) hpre'
  have hpreE := bind_values_go_all_bindCall encCS pre hpre'
  refine ⟨?_, ?_, ?_⟩
  · simp [bind_values, valuesElems_ofList, happ, hbadgo]
  · simp only [bind_values, valuesElems_ofList, happ, hbadgo]
    have hstep : ∀ l, firstSignal (Ev.resetCall :: l) = firstSignal l := fun l => rfl
    rw [hstep, firstSignal_append_of_none]
    · rfl
    · intro e he
      rw [hpreE e he]
      rfl
  · simp [bind_values, valuesElems_ofList, happ, hbadgo]

/-- Witness for C10 at a concrete two-byte binary string declaring one
character. -/
theorem C10_blob_length_mismatch_aborts_witness :
    (bind_values encId (ofList [.integer 7])).err = none ∧
    (bind_values encId (ofList ([.integer 7] ++
        .str ⟨[65, 66], 1, some "binary"⟩ :: [.integer 8]))).err = some "" ∧
    firstSignal (bind_values encId (ofList ([.integer 7] ++
        .str ⟨[65, 66], 1, some "binary"⟩ :: [.integer 8]))).events
      = some (.err "BLOB values must be unibyte") ∧
    (bind_values encId (ofList ([.integer 7] ++
        .str ⟨[65, 66], 1, some "binary"⟩ :: [.integer 8]))).bound
      = (bind_values encId (ofList [.integer 7])).bound := by
  have h := C10_blob_length_mismatch_aborts encId [.integer 7] [.integer 8]
    ⟨[65, 66], 1, some "binary"⟩ (by decide) rfl (by decide)
  exact ⟨by decide, h.1, h.2.1, h.2.2⟩

theorem anonOpenCounter_eq (k : Nat) : anonOpenCounter k = k := by
  induction k with
  | zero => rfl
  | succ n ih => simp [anonOpenCounter, Fsqlite_open_anonymous, ih]

theorem anonDbName_inj {a b : Nat} (h : anonDbName a = anonDbName b) : a = b := by
  have h1 : decimalDigits a = decimalDigits b := by
    have h2 := congrArg (List.drop memNameTag.length) h
    simpa [anonDbName, List.drop_left] using h2
  have h3 : Nat.digits 10 a = Nat.digits 10 b := by
    have h4 := congrArg List.reverse h1
    simpa [decimalDigits] using h4
  have h5 := congrArg (Nat.ofDigits 10) h3
  simpa [Nat.ofDigits_digits] using h5

/-- C9: the db_count counter strictly increases at every anonymous open, and
the requested in-memory names of any two distinct anonymous opens differ, so
successive anonymous opens never alias the same in-memory database. -/
theorem C9_anonymous_open_names_unique :
    (∀ k, anonOpenCounter k < anonOpenCounter (k + 1)) ∧
    (∀ i j, i ≠ j → anonOpenName i ≠ anonOpenName j) := by
  constructor
  · intro k
    simp only [anonOpenCounter, Fsqlite_open_anonymous]
    omega
  · intro i j hij hname
    apply hij
    have h1 : anonDbName (anonOpenCounter i + 1) = anonDbName (anonOpenCounter j + 1) := by
      simpa [anonOpenName, Fsqlite_open_anonymous] using hname
    have h2 := anonDbName_inj h1
    simp [anonOpenCounter_eq] at h2
    omega

/-- Witness for C9: the first two anonymous opens request distinct names. -/
theorem C9_anonymous_open_names_unique_witness :
    anonOpenName 0 ≠ anonOpenName 1 :=
  C9_anonymous_open_names_unique.2 0 1 (by decide)

theorem runCursorOp_eof (st : Lisp_Statement) (op : CursorOp) (h : st.eof = true) :
    (runCursorOp st op).state.eof = true := by
  cases op with
  | next s e =>
      cases hstmt : st.stmt with
      | none => simpa [runCursorOp, Fsqlite_next, lisp_statement_check, hstmt] using h
      | some u =>
          simp only [runCursorOp, Fsqlite_next, lisp_statement_check, hstmt]
          split
          · simpa using h
          · split <;> simp [h]
  | more_p =>
      cases hstmt : st.stmt with
      | none => simpa [runCursorOp, Fsqlite_more_p, lisp_statement_check, hstmt] using h
      | some u => simpa [runCursorOp, Fsqlite_more_p, lisp_statement_check, hstmt] using h
  | columnsOp ns =>
      cases hstmt : st.stmt with
      | none => simpa [runCursorOp, Fsqlite_columns, lisp_statement_check, hstmt] using h
      | some u => simpa [runCursorOp, Fsqlite_columns, lisp_statement_check, hstmt] using h
  | finalizeOp =>
      cases hstmt : st.stmt with
      | none => simpa [runCursorOp, Fsqlite_finalize, lisp_statement_check, hstmt] using h
      | some u => simpa [runCursorOp, Fsqlite_finalize, lisp_statement_check, hstmt] using h

/-- C8: once the end-of-data flag of a cursor handle is true it stays true
under every sequence of cursor operations, and Fsqlite_more_p leaves the
handle unchanged, performs no step call, and on an open cursor answers
exactly the negation of the flag. -/
theorem C8_eof_flag_permanent_and_more_p_pure :
    (∀ (ops : List CursorOp) (st : Lisp_Statement), st.eof = true →
      (runCursorOps st ops).eof = true) ∧
    (∀ st : Lisp_Statement,
      (Fsqlite_more_p st).state = st ∧
      Ev.stepCall ∉ (Fsqlite_more_p st).events ∧
      (st.stmt = some () →
        (Fsqlite_more_p st).ret = (if st.eof then .nil else .t))) := by
  constructor
  · intro ops
    induction ops with
    | nil => exact fun st h => h
    | cons op rest ih =>
        intro st h
        simp only [runCursorOps]
        exact ih _ (runCursorOp_eof st op h)
  · intro st
    cases hstmt : st.stmt with
    | none =>
        refine ⟨?_, ?_, ?_⟩
        · simp [Fsqlite_more_p, lisp_statement_check, hstmt]
        · simp [Fsqlite_more_p, lisp_statement_check, hstmt]
        · intro hcontra
          simp [hstmt] at hcontra
    | some u =>
        refine ⟨?_, ?_, ?_⟩ <;>
          simp [Fsqlite_more_p, lisp_statement_check, hstmt]

/-- A cursor handle whose end-of-data flag is already set. -/
def stEof : Lisp_Statement := ⟨some 0, some (), true⟩

/-- Witness for C8 at a concrete exhausted cursor and operation sequence. -/
theorem C8_eof_flag_permanent_and_more_p_pure_witness :
    (runCursorOps stEof [.next (SQLITE_ROW, []) "", .finalizeOp, .more_p]).eof = true ∧
    (Fsqlite_more_p stEof).ret = .nil := by
  refine ⟨C8_eof_flag_permanent_and_more_p_pure.1 _ stEof rfl, ?_⟩
  have h := (C8_eof_flag_permanent_and_more_p_pure.2 stEof).2.2 rfl
  simpa [stEof] using h

theorem nreverse_foldl_cons {α : Type} (f : α → LispValue) (l : List α) :
    nreverse (l.foldl (fun acc r => .cons (f r) acc) .nil) = ofList (l.map f) := by
  have h0 : (LispValue.nil : LispValue) = ofList [] := rfl
  rw [h0, foldl_cons_ofList]
  unfold nreverse
  rw [h0, nreverseAux_ofList]
  simp

theorem execExit_firstSignal (ret : Int) (msg : String) (evs : List Ev)
    (hn : ∀ e ∈ evs, isSignalEv e = false) :
    firstSignal (execExit ret msg evs).events
      = some (if ret = SQLITE_LOCKED ∨ ret = SQLITE_BUSY
              then .sqlite_locked_error msg else .err msg) := by
  by_cases hl : ret = SQLITE_LOCKED ∨ ret = SQLITE_BUSY
  · simp only [execExit]
    rw [if_pos hl, if_pos hl, firstSignal_append_of_none _ _ hn]
    rfl
  · simp only [execExit]
    rw [if_neg hl, if_neg hl, firstSignal_append_of_none _ _ hn]
    rfl

theorem execStep_fail (eng : Engine) (evs : List Ev)
    (h1 : (stepHead eng).1 ≠ SQLITE_OK) (h2 : (stepHead eng).1 ≠ SQLITE_DONE) :
    execStep eng evs
      = execExit (stepHead eng).1 eng.errmsg (evs ++ [Ev.stepCall, Ev.finalizeCall]) := by
  simp only [execStep]
  rw [if_pos ⟨h1, h2⟩]

theorem execStep_ok (eng : Engine) (evs : List Ev)
    (hstep : (stepHead eng).1 = SQLITE_OK ∨ (stepHead eng).1 = SQLITE_DONE) :
    execStep eng evs
      = ⟨.integer eng.changes, evs ++ [Ev.stepCall, Ev.finalizeCall]⟩ := by
  have hsret : ¬((stepHead eng).1 ≠ SQLITE_OK ∧ (stepHead eng).1 ≠ SQLITE_DONE) := by
    rcases hstep with h | h <;> simp [h]
  simp only [execStep]
  rw [if_neg hsret]

/-- C5: a successful execute on an open connection with textual SQL steps
the native statement exactly once, then finalizes it, raises nothing, and
returns the number of rows the engine reports changed. -/
theorem C5_execute_steps_once_returns_changes (d : Nat) (q : LispString)
    (values : Option LispValue) (encCS : EncCS) (eng : Engine)
    (hvt : valuesTypeOk values = true)
    (hprep : eng.prepareRet = SQLITE_OK)
    (hbind : bindPhaseOk (bindPhase encCS values))
    (hstep : (stepHead eng).1 = SQLITE_OK ∨ (stepHead eng).1 = SQLITE_DONE) :
    (Fsqlite_execute (.sqliteHandle ⟨some d⟩) (.str q) values encCS eng).ret
      = .integer eng.changes ∧
    firstSignal (Fsqlite_execute (.sqliteHandle ⟨some d⟩) (.str q) values encCS eng).events
      = none ∧
    (∃ pre, (Fsqlite_execute (.sqliteHandle ⟨some d⟩) (.str q) values encCS eng).events
      = pre ++ [Ev.stepCall, Ev.finalizeCall] ∧ Ev.stepCall ∉ pre) := by
  rcases bindPhase_cases encCS values with hb | ⟨v, hb⟩
  · have hred : Fsqlite_execute (.sqliteHandle ⟨some d⟩) (.str q) values encCS eng
        = execStep eng [Ev.prepareCall] := by
      simp [Fsqlite_execute, lisp_sqlite_check, hvt, hprep, hb]
    rw [hred, execStep_ok eng _ hstep]
    exact ⟨rfl, rfl, ⟨[Ev.prepareCall], rfl, by decide⟩⟩
  · have hbe : (bind_values encCS v).err = none := by
      rw [hb] at hbind
      simpa [bindPhaseOk] using hbind
    have hred : Fsqlite_execute (.sqliteHandle ⟨some d⟩) (.str q) values encCS eng
        = execStep eng ([Ev.prepareCall] ++ (bind_values encCS v).events) := by
      simp [Fsqlite_execute, lisp_sqlite_check, hvt, hprep, hb, hbe]
    rw [hred, execStep_ok eng _ hstep]
    have hev := bind_values_ok_events encCS v hbe
    refine ⟨rfl, ?_, ?_⟩
    · apply firstSignal_eq_none
      intro e he
      rcases List.mem_append.mp he with h1 | h2
      · rcases List.mem_append.mp h1 with h3 | h4
        · simp at h3
          subst h3
          rfl
        · rcases hev e h4 with h5 | h5 <;> subst h5 <;> rfl
      · simp at h2
        rcases h2 with h5 | h5 <;> subst h5 <;> rfl
    · refine ⟨[Ev.prepareCall] ++ (bind_values encCS v).events, rfl, ?_⟩
      intro hmem
      rcases List.mem_append.mp hmem with h1 | h2
      · simp at h1
      · rcases hev _ h2 with h5 | h5 <;> simp at h5

/-- The engine oracle of the one-row insert example: the single step
completes and one row is reported changed. -/
def engIns : Engine := ⟨SQLITE_OK, false, [(SQLITE_DONE, [])], 1, "", SQLITE_OK, []⟩

/-- The bound values of the insert example: the list holding 1 and x. -/
def valsIns : LispValue := .cons (.integer 1) (.cons (.str ⟨[120], 1, none⟩) .nil)

/-- Witness for C5: the one-row insert example returns affected-row count 1
and raises nothing. -/
theorem C5_execute_steps_once_returns_changes_witness :
    (Fsqlite_execute (.sqliteHandle ⟨some 0⟩) (.str sql0) (some valsIns) encId engIns).ret
      = .integer 1 ∧
    firstSignal (Fsqlite_execute (.sqliteHandle ⟨some 0⟩) (.str sql0) (some valsIns)
      encId engIns).events = none := by
  have h := C5_execute_steps_once_returns_changes 0 sql0 (some valsIns) encId engIns
    rfl rfl (by decide) (Or.inr rfl)
  exact ⟨h.1, h.2.1⟩

/-- C6: a failing execute signals the dedicated sqlite-locked-error exactly
when the native status at prepare or step time is SQLITE_LOCKED or
SQLITE_BUSY, and a generic error carrying the engine message otherwise. -/
theorem C6_execute_locked_vs_generic (d : Nat) (q : LispString)
    (values : Option LispValue) (encCS : EncCS) (eng : Engine)
    (hvt : valuesTypeOk values = true) :
    (eng.prepareRet ≠ SQLITE_OK →
      firstSignal (Fsqlite_execute (.sqliteHandle ⟨some d⟩) (.str q) values encCS eng).events
        = some (if eng.prepareRet = SQLITE_LOCKED ∨ eng.prepareRet = SQLITE_BUSY
                then .sqlite_locked_error eng.errmsg else .err eng.errmsg)) ∧
    (eng.prepareRet = SQLITE_OK → bindPhaseOk (bindPhase encCS values) →
      (stepHead eng).1 ≠ SQLITE_OK → (stepHead eng).1 ≠ SQLITE_DONE →
      firstSignal (Fsqlite_execute (.sqliteHandle ⟨some d⟩) (.str q) values encCS eng).events
        = some (if (stepHead eng).1 = SQLITE_LOCKED ∨ (stepHead eng).1 = SQLITE_BUSY
                then .sqlite_locked_error eng.errmsg else .err eng.errmsg)) := by
  constructor
  · intro hprep
    have hred : Fsqlite_execute (.sqliteHandle ⟨some d⟩) (.str q) values encCS eng
        = execExit eng.prepareRet eng.errmsg
            ([Ev.prepareCall]
              ++ (if eng.prepareStmt then [Ev.finalizeCall, Ev.resetCall] else [])) := by
      simp [Fsqlite_execute, lisp_sqlite_check, hvt, hprep]
    have hn : ∀ e ∈ [Ev.prepareCall]
        ++ (if eng.prepareStmt then [Ev.finalizeCall, Ev.resetCall] else []),
        isSignalEv e = false := by
      intro e he
      cases hps : eng.prepareStmt <;> rw [hps] at he <;> simp at he
      · subst he
        rfl
      · rcases he with h1 | h1 | h1 <;> subst h1 <;> rfl
    rw [hred, execExit_firstSignal _ _ _ hn]
  · intro hprep hbind h1 h2
    rcases bindPhase_cases encCS values with hb | ⟨v, hb⟩
    · have hred : Fsqlite_execute (.sqliteHandle ⟨some d⟩) (.str q) values encCS eng
          = execStep eng [Ev.prepareCall] := by
        simp [Fsqlite_execute, lisp_sqlite_check, hvt, hprep, hb]
      rw [hred, execStep_fail eng _ h1 h2, execExit_firstSignal]
      intro e he
      simp at he
      rcases he with h3 | h3 | h3 <;> subst h3 <;> rfl
    · have hbe : (bind_values encCS v).err = none := by
        rw [hb] at hbind
        simpa [bindPhaseOk] using hbind
      have hred : Fsqlite_execute (.sqliteHandle ⟨some d⟩) (.str q) values encCS eng
          = execStep eng ([Ev.prepareCall] ++ (bind_values encCS v).events) := by
        simp [Fsqlite_execute, lisp_sqlite_check, hvt, hprep, hb, hbe]
      rw [hred, execStep_fail eng _ h1 h2, execExit_firstSignal]
      have hev := bind_values_ok_events encCS v hbe
      intro e he
      rcases List.mem_append.mp he with h3 | h3
      · rcases List.mem_append.mp h3 with h4 | h4
        · simp at h4
          subst h4
          rfl
        · rcases hev e h4 with h5 | h5 <;> subst h5 <;> rfl
      · simp at h3
        rcases h3 with h5 | h5 <;> subst h5 <;> rfl

/-- An engine whose prepare reports a busy database. -/
def engBusy : Engine := ⟨SQLITE_BUSY, false, [], 0, "database is locked", SQLITE_OK, []⟩

/-- An engine whose single step reports a generic failure. -/
def engStepErr : Engine :=
  ⟨SQLITE_OK, false, [(SQLITE_ERROR, [])], 0, "constraint failed", SQLITE_OK, []⟩

/-- Witness for C6: a busy prepare raises the locked error, a generic step
failure raises the generic error with the engine message. -/
theorem C6_execute_locked_vs_generic_witness :
    firstSignal (Fsqlite_execute (.sqliteHandle ⟨some 0⟩) (.str sql0) none
        encId engBusy).events = some (.sqlite_locked_error "database is locked") ∧
    firstSignal (Fsqlite_execute (.sqliteHandle ⟨some 0⟩) (.str sql0) none
        encId engStepErr).events = some (.err "constraint failed") := by
  constructor
  · have h := (C6_execute_locked_vs_generic 0 sql0 none encId engBusy rfl).1 (by decide)
    simpa using h
  · have h := (C6_execute_locked_vs_generic 0 sql0 none encId engStepErr rfl).2
      rfl trivial (by decide) (by decide)
    simpa using h

theorem select_eager_spec (mode : Option LispValue) (eng : Engine) (evs : List Ev)
    (hn : ∀ e ∈ evs, isSignalEv e = false) :
    firstSignal (select_eager mode eng evs).events = none ∧
    Ev.finalizeCall ∈ (select_eager mode eng evs).events ∧
    (select_eager mode eng evs).ret
      = (if isSym mode "full" then
           LispValue.cons (column_names eng.columnNames)
             (ofList ((stepCollect eng.steps).1.map row_to_value))
         else ofList ((stepCollect eng.steps).1.map row_to_value)) := by
  refine ⟨?_, ?_, ?_⟩
  · apply firstSignal_eq_none
    intro e he
    simp only [select_eager] at he
    rcases List.mem_append.mp he with h1 | h2
    · rcases List.mem_append.mp h1 with h3 | h4
      · exact hn e h3
      · rw [stepCollect_all_stepCall _ e h4]
        rfl
    · simp at h2
      subst h2
      rfl
  · simp only [select_eager]
    exact List.mem_append.mpr (Or.inr (by simp))
  · simp only [select_eager]
    rw [nreverse_foldl_cons]

/-- C1, amended.  In eager modes, once prepare and bind have succeeded, the
stepping loop of Fsqlite_select stops at the first status other than row,
whatever that status is: no failure is ever raised during stepping (a status
that is neither row nor done is silently ignored), the rows collected up to
that point are returned, and the statement is still finalized. -/
theorem C1_select_eager_ignores_step_errors (d : Nat) (q : LispString)
    (values mode : Option LispValue) (encCS : EncCS) (pe : Int → String) (eng : Engine)
    (hprep : eng.prepareRet = SQLITE_OK)
    (hbind : bindPhaseOk (bindPhase encCS values))
    (hmode : isSym mode "set" = false) :
    firstSignal (Fsqlite_select (.sqliteHandle ⟨some d⟩) (.str q) values mode
      encCS pe eng).events = none ∧
    Ev.finalizeCall ∈ (Fsqlite_select (.sqliteHandle ⟨some d⟩) (.str q) values mode
      encCS pe eng).events ∧
    (Fsqlite_select (.sqliteHandle ⟨some d⟩) (.str q) values mode encCS pe eng).ret
      = (if isSym mode "full" then
           LispValue.cons (column_names eng.columnNames)
             (ofList ((stepCollect eng.steps).1.map row_to_value))
         else ofList ((stepCollect eng.steps).1.map row_to_value)) := by
  rcases bindPhase_cases encCS values with hb | ⟨v, hb⟩
  · have hred : Fsqlite_select (.sqliteHandle ⟨some d⟩) (.str q) values mode encCS pe eng
        = select_eager mode eng [Ev.prepareCall] := by
      simp [Fsqlite_select, lisp_sqlite_check, hprep, hb, hmode]
    rw [hred]
    apply select_eager_spec
    intro e he
    simp at he
    subst he
    rfl
  · have hbe : (bind_values encCS v).err = none := by
      rw [hb] at hbind
      simpa [bindPhaseOk] using hbind
    have hred : Fsqlite_select (.sqliteHandle ⟨some d⟩) (.str q) values mode encCS pe eng
        = select_eager mode eng ([Ev.prepareCall] ++ (bind_values encCS v).events) := by
      simp [Fsqlite_select, lisp_sqlite_check, hprep, hb, hbe, hmode]
    rw [hred]
    apply select_eager_spec
    have hev := bind_values_ok_events encCS v hbe
    intro e he
    rcases List.mem_append.mp he with h1 | h2
    · simp at h1
      subst h1
      rfl
    · rcases hev e h2 with h5 | h5 <;> subst h5 <;> rfl

/-- The engine of the C1 counterexample: the first step yields a row, the
second reports SQLITE_ERROR. -/
def engC1 : Engine :=
  ⟨SQLITE_OK, true, [(SQLITE_ROW, [.integer 7]), (SQLITE_ERROR, [])], 0,
   "step failed", SQLITE_OK, []⟩

/-- Counterexample to C1 as stated: during eager stepping the engine returns
SQLITE_ERROR, which is neither row nor done, yet the select raises no
failure and returns the one row collected so far (the statement is
finalized, but the claimed failure never happens). -/
theorem C1_counterexample_step_error_not_raised :
    (stepCollect engC1.steps).2.1 = SQLITE_ERROR ∧
    SQLITE_ERROR ≠ SQLITE_ROW ∧
    SQLITE_ERROR ≠ SQLITE_DONE ∧
    firstSignal (Fsqlite_select (.sqliteHandle ⟨some 0⟩) (.str sql0) none none
      encId prepErr0 engC1).events = none ∧
    (Fsqlite_select (.sqliteHandle ⟨some 0⟩) (.str sql0) none none
      encId prepErr0 engC1).ret = .cons (.cons (.integer 7) .nil) .nil ∧
    Ev.finalizeCall ∈ (Fsqlite_select (.sqliteHandle ⟨some 0⟩) (.str sql0) none none
      encId prepErr0 engC1).events :=
  ⟨rfl, by decide, by decide, rfl, rfl, by decide⟩

/-- Witness for the amended C1 at the counterexample engine. -/
theorem C1_select_eager_ignores_step_errors_witness :
    firstSignal (Fsqlite_select (.sqliteHandle ⟨some 1⟩) (.str sql0) none none
      encId prepErr0 engC1).events = none ∧
    Ev.finalizeCall ∈ (Fsqlite_select (.sqliteHandle ⟨some 1⟩) (.str sql0) none none
      encId prepErr0 engC1).events := by
  have h := C1_select_eager_ignores_step_errors 1 sql0 none none encId prepErr0 engC1
    rfl trivial rfl
  exact ⟨h.1, h.2.1⟩
